import Mathlib

/-!
Shallow embedding of the job-processing kernel of the `vscodethemes`
repository: the `fetchThemes` crawler job (`src/backend/jobs/fetchThemes.ts`),
the runtime payload/record validators (`src/types/runtime.ts`), and the
two-tier job-error taxonomy it routes on.

JavaScript runtime values are modelled by the inductive `JValue`; JavaScript
member access (which throws a `TypeError` on a `null`/`undefined` base and
yields `undefined` on a missing property) is modelled by `jsAccess`/`getProp`.
Numbers are modelled as rationals (`ℚ`): the claims never depend on
floating-point rounding.  The queue side effects of one invocation are
modelled as an ordered trace of `Event`s.
-/

namespace VSCodeThemes

/-- A JavaScript runtime value, as decoded from JSON or passed as a job
payload.  `undefined` is JavaScript `undefined` (the result of reading a missing
property), distinct from JSON `null`. -/
inductive JValue where
  | jnull
  | undefined
  | bool (b : Bool)
  | num (q : ℚ)
  | str (s : String)
  | arr (xs : List JValue)
  | obj (fields : List (String × JValue))

/-- Look up the first binding of `key` in an object's field list
(JavaScript objects have at most one binding per key at runtime). -/
def lookupField : List (String × JValue) → String → Option JValue
  | [], _ => none
  | (k, v) :: fs, key => if k = key then some v else lookupField fs key

/-- Replace the first binding of `key` in an object's field list. -/
def setField : List (String × JValue) → String → JValue → List (String × JValue)
  | [], _, _ => []
  | (k, v) :: fs, key, w =>
      if k = key then (k, w) :: fs else (k, v) :: setField fs key w

/-- The decimal value of an ASCII digit character. -/
def decDigit? (c : Char) : Option Nat :=
  if 48 ≤ c.toNat ∧ c.toNat ≤ 57 then some (c.toNat - 48) else none

/-- Parse a non-empty all-digit character list as a decimal number. -/
def indexOfChars : List Char → Nat → Option Nat
  | [], acc => some acc
  | c :: cs, acc =>
      match decDigit? c with
      | some d => indexOfChars cs (acc * 10 + d)
      | none => none

/-- Interpret a property key as a JavaScript array index. -/
def strIndex? (s : String) : Option Nat :=
  match s.data with
  | [] => none
  | cs => indexOfChars cs 0

/-- Property read on a non-nullish base: returns the property's value, or
`undefined` when the property is missing.  Arrays expose `length` and numeric
indices; strings expose `length` and per-character indices, as in
JavaScript. -/
def getProp : JValue → String → JValue
  | .obj fs, key => (lookupField fs key).getD .undefined
  | .arr xs, key =>
      if key = "length" then .num xs.length
      else match strIndex? key with
        | some i => xs.getD i .undefined
        | none => .undefined
  | .str s, key =>
      if key = "length" then .num s.length
      else match strIndex? key with
        | some i =>
            match s.data.get? i with
            | some c => .str (String.mk [c])
            | none => .undefined
        | none => .undefined
  | _, _ => .undefined

/-- JavaScript member access `v.key`: throws a `TypeError` (modelled as
`Except.error`) when the base is `null` or `undefined`, otherwise reads the
property. -/
def jsAccess (v : JValue) (key : String) : Except Unit JValue :=
  match v with
  | .jnull => .error ()
  | .undefined => .error ()
  | _ => .ok (getProp v key)

/-- JavaScript strict equality `v === q` against a number literal. -/
def strictEqNum (v : JValue) (q : ℚ) : Bool :=
  match v with
  | .num r => r = q
  | _ => false

/-- JavaScript strict equality `v === s` against a string literal. -/
def strictEqStr (v : JValue) (s : String) : Bool :=
  match v with
  | .str t => t = s
  | _ => false

/-- Numeric coercion of a value statically known to be a number
(used only after a `Number` guard has passed). -/
def getNumD (v : JValue) : ℚ :=
  match v with
  | .num q => q
  | _ => 0

/-- The element list of a value statically known to be an array
(used only after an `Array(...)` guard has passed). -/
def asArr (v : JValue) : List JValue :=
  match v with
  | .arr xs => xs
  | _ => []

/-- The character data of a value statically known to be a string
(used only after a `String` guard has passed). -/
def asStr (v : JValue) : String :=
  match v with
  | .str s => s
  | _ => ""

/-- A runtype from the `runtypes` library: only its `guard` method is used by
the source. -/
structure Runtype where
  guard : JValue → Bool

/-- `runtypes` `Number`: accepts exactly JavaScript numbers. -/
def RTNumber : Runtype := ⟨fun v => match v with | .num _ => true | _ => false⟩

/-- `runtypes` `String`: accepts exactly JavaScript strings. -/
def RTString : Runtype := ⟨fun v => match v with | .str _ => true | _ => false⟩

/-- `runtypes` `Array(t)`: accepts arrays all of whose elements pass `t`. -/
def RTArray (t : Runtype) : Runtype :=
  ⟨fun v => match v with | .arr xs => xs.all t.guard | _ => false⟩

/-- `runtypes` `Record(fields)`: accepts object-typed values (`typeof v ===
"object"` and not `null`; in JavaScript arrays are objects too) each of whose
listed fields passes its field runtype; unknown extra fields are ignored. -/
def RTRecord (fields : List (String × Runtype)) : Runtype :=
  ⟨fun v => match v with
    | .obj _ => fields.all fun kt => kt.2.guard (getProp v kt.1)
    | .arr _ => fields.all fun kt => kt.2.guard (getProp v kt.1)
    | _ => false⟩

/-- `src/types/runtime.ts`: `PublisherRuntime`. -/
def PublisherRuntime : Runtype :=
  RTRecord [("publisherName", RTString)]

/-- `src/types/runtime.ts`: `PropertyRuntime`. -/
def PropertyRuntime : Runtype :=
  RTRecord [("key", RTString), ("value", RTString)]

/-- `src/types/runtime.ts`: `VersionRuntime`. -/
def VersionRuntime : Runtype :=
  RTRecord [("lastUpdated", RTString), ("properties", RTArray PropertyRuntime)]

/-- `src/types/runtime.ts`: `StatisticRuntime`. -/
def StatisticRuntime : Runtype :=
  RTRecord [("statisticName", RTString), ("value", RTNumber)]

/-- `src/types/runtime.ts`: `ExtensionRuntime`. -/
def ExtensionRuntime : Runtype :=
  RTRecord
    [("extensionName", RTString),
     ("publisher", PublisherRuntime),
     ("versions", RTArray VersionRuntime),
     ("statistics", RTArray StatisticRuntime)]

/-- `src/types/runtime.ts` lines 33–35: `ScrapeThemesPayloadRuntime =
Record({ page: Number })`; imported by `src/backend/jobs/fetchThemes.ts` under
the name `FetchThemesPayloadRuntime` and used as the job-payload validator. -/
def ScrapeThemesPayloadRuntime : Runtype :=
  RTRecord [("page", RTNumber)]

/-- Code-point lexicographic order on character lists, the order underlying
`a.localeCompare(b)` on the all-ASCII ISO-8601 timestamp strings compared by
the source. -/
def strLeAux : List Char → List Char → Bool
  | [], _ => true
  | _ :: _, [] => false
  | c :: cs, d :: ds =>
      if c.toNat < d.toNat then true
      else if d.toNat < c.toNat then false
      else strLeAux cs ds

/-- `s` is at most `t` in code-point lexicographic order
(`s.localeCompare(t) <= 0`). -/
def strLe (s t : String) : Bool := strLeAux s.data t.data

/-- The `lastUpdated` field of a version record (a string whenever
`VersionRuntime` has accepted the record). -/
def lastUpdatedOf (v : JValue) : String := asStr (getProp v "lastUpdated")

/-- The sort order of `theme.versions.sort((a, b) =>
b.lastUpdated.localeCompare(a.lastUpdated))` in
`src/backend/jobs/fetchThemes.ts`: `a` sorts no later than `b` exactly when
the comparator returns a non-positive number, i.e. when
`b.lastUpdated <= a.lastUpdated`, giving descending order by `lastUpdated`. -/
def versionLe (a b : JValue) : Bool := strLe (lastUpdatedOf b) (lastUpdatedOf a)

/-- `versionLe` as a decidable relation, the sort order of
`extractRepositories`. -/
def versionRel (a b : JValue) : Prop := versionLe a b = true

instance : DecidableRel versionRel := fun a b => decEq (versionLe a b) true

/-- `theme.versions.sort(...)` from `extractRepositories`: JavaScript
`Array.prototype.sort` is a stable sort consistent with the comparator
(`versionLe` is a total preorder, so all stable sorts agree), modelled by a
stable insertion sort; in the source it also mutates the versions array in
place, which `processTheme` accounts for by returning the updated theme. -/
def sortVersionsDesc (vs : List JValue) : List JValue :=
  List.insertionSort versionRel vs

/-- `src/backend/jobs/fetchThemes.ts`: `GITHUB_PROPERTY_NAME`. -/
def GITHUB_PROPERTY_NAME : String :=
  "Microsoft.VisualStudio.Services.Links.GitHub"

/-- One iteration of the `themes.forEach` body of `extractRepositories`
(`src/backend/jobs/fetchThemes.ts` lines 145–170) on a single theme record:
  * a record rejected by `ExtensionRuntime.guard` is skipped (logged only);
  * otherwise `theme.versions` is sorted in place (descending by
    `lastUpdated`) and the first element taken as the latest version — when
    `versions` is empty, `sort(...)[0]` is `undefined` and the subsequent
    `.properties` access throws a `TypeError` (modelled as `.error ()`);
  * the latest version's properties are searched for
    `GITHUB_PROPERTY_NAME`; its value is the extracted URL, a missing
    property is skipped (logged only).
Returns the URL contributed by this record (if any) and the record as the
caller observes it after in-place mutation. -/
def processTheme (theme : JValue) : Except Unit (Option String × JValue) :=
  if ExtensionRuntime.guard theme then
    let sorted := sortVersionsDesc (asArr (getProp theme "versions"))
    match sorted with
    | [] => .error ()
    | latest :: _ =>
      let mutated : JValue :=
        match theme with
        | .obj fs => .obj (setField fs "versions" (.arr sorted))
        | t => t
      match (asArr (getProp latest "properties")).find?
          (fun p => strictEqStr (getProp p "key") GITHUB_PROPERTY_NAME) with
      | some p => .ok (some (asStr (getProp p "value")), mutated)
      | none => .ok (none, mutated)
  else .ok (none, theme)

/-- `extractRepositories` (`src/backend/jobs/fetchThemes.ts`): folds
`processTheme` over the themes list, collecting extracted repository URLs in
order.  A `TypeError` thrown by any iteration propagates out (as in the
JavaScript `forEach`); the URLs pushed before the throw are then never
observed by the caller.  The second component is the themes list as the
caller observes it after the in-place `sort` mutations. -/
def extractRepositories : List JValue → Except Unit (List String × List JValue)
  | [] => .ok ([], [])
  | t :: ts =>
    match processTheme t with
    | .error e => .error e
    | .ok (r, t') =>
      match extractRepositories ts with
      | .error e => .error e
      | .ok (rs, ts') =>
        .ok ((match r with | some u => u :: rs | none => rs), t' :: ts')

mutual

/-- `JSON.stringify`, as used for diagnostic messages in the source.  Number
rendering is modelled up to representation (no claim depends on the exact
digits); `undefined` renders as the string a template literal would produce
for it. -/
def stringify : JValue → String
  | .jnull => "null"
  | .undefined => "undefined"
  | .bool b => if b then "true" else "false"
  | .num q => if q.den = 1 then toString q.num else toString q
  | .str s => "\"" ++ s ++ "\""
  | .arr xs => "[" ++ stringifyElems xs ++ "]"
  | .obj fs => "\x7b" ++ stringifyFields fs ++ "\x7d"

/-- Comma-separated serialization of array elements. -/
def stringifyElems : List JValue → String
  | [] => ""
  | [x] => stringify x
  | x :: xs => stringify x ++ "," ++ stringifyElems xs

/-- Comma-separated serialization of object fields. -/
def stringifyFields : List (String × JValue) → String
  | [] => ""
  | [kv] => "\"" ++ kv.1 ++ "\":" ++ stringify kv.2
  | kv :: fs => "\"" ++ kv.1 ++ "\":" ++ stringify kv.2 ++ "," ++ stringifyFields fs

end

/-- Modelled from the spec: the two-tier error taxonomy of
`src/backend/errors.ts`, which is not part of the provided sources (only its
importers are).  Per the spec, `Transient` means "the precondition for
success might hold on retry" and `Permanent` means "the precondition can
never hold without external intervention"; both carry a human-readable
message, and `TransientJobError.is` / `PermanentJobError.is` recognise
exactly their own class.  Any other thrown value (here: a JavaScript
`TypeError`) is unclassified. -/
inductive JobError where
  | transient (msg : String)
  | permanent (msg : String)
  | typeError
deriving DecidableEq

/-- One received job message: opaque receipt handle plus an untrusted
payload. -/
structure JobMessage where
  receiptHandle : String
  payload : JValue

/-- The catalog response for the single POST request an invocation issues:
`ok`/`statusText` from the HTTP layer and `body` the value produced by
`response.json()`. -/
structure FetchResponse where
  ok : Bool
  statusText : String
  body : JValue

/-- One observable side effect of an invocation, in order of occurrence:
a catalog HTTP request, a queue `create` (with the new job's `page`),
`notify`, `succeed`, `retry`, `fail`, or the start of
`extractRepositories`. -/
inductive Event where
  | fetchRequest (page : ℚ)
  | create (page : ℚ)
  | notify
  | succeed
  | retry
  | fail
  | extractStart
deriving DecidableEq

/-- `fetchMarketplaceThemes` (`src/backend/jobs/fetchThemes.ts` lines
85–133), from the point the response is available: a non-`ok` response
throws `TransientJobError("Bad response: " + statusText)`; otherwise the
source evaluates `data.results[0].extensions` inside a `try` — only a
`TypeError` thrown by one of the three member accesses (nullish base) is
caught and re-thrown as `TransientJobError("Invalid response data: " +
JSON.stringify(data))`; an access chain that merely yields `undefined`
returns it unchanged. -/
def fetchMarketplaceThemes (resp : FetchResponse) : Except JobError JValue :=
  if !resp.ok then
    .error (.transient ("Bad response: " ++ resp.statusText))
  else
    match (do
        let r ← jsAccess resp.body "results"
        let r0 ← jsAccess r "0"
        jsAccess r0 "extensions" : Except Unit JValue) with
    | .ok v => .ok v
    | .error _ =>
        .error (.transient ("Invalid response data: " ++ stringify resp.body))

/-- The `try` block of `run` (`src/backend/jobs/fetchThemes.ts` lines
24–63) on a received job's payload, returning the ordered side-effect trace
and the error it throws, if any:
  * an invalid payload throws `PermanentJobError("Invalid job payload.")`
    before any catalog request;
  * the catalog request is issued (`Event.fetchRequest`);
  * `themes.length === 0` succeeds the job and stops — when `themes` is not
    an array this strict comparison follows JavaScript semantics: a nullish
    `themes` makes `.length` throw a `TypeError`;
  * otherwise the next-page job is created and `notify` called, then
    extraction runs (`Event.extractStart`); a non-array `themes` has no
    `forEach` and throws a `TypeError` here;
  * when extraction yields zero URLs the source returns early — without
    succeeding the job; otherwise the job is succeeded. -/
def runBody (payload : JValue) (resp : FetchResponse) :
    List Event × Option JobError :=
  if !ScrapeThemesPayloadRuntime.guard payload then
    ([], some (.permanent "Invalid job payload."))
  else
    let page := getNumD (getProp payload "page")
    match fetchMarketplaceThemes resp with
    | .error e => ([.fetchRequest page], some e)
    | .ok themes =>
      match themes with
      | .jnull => ([.fetchRequest page], some .typeError)
      | .undefined => ([.fetchRequest page], some .typeError)
      | _ =>
        if strictEqNum (getProp themes "length") 0 then
          ([.fetchRequest page, .succeed], none)
        else
          let pre : List Event :=
            [.fetchRequest page, .create (page + 1), .notify, .extractStart]
          match themes with
          | .arr ts =>
            match extractRepositories ts with
            | .error _ => (pre, some .typeError)
            | .ok (repos, _) =>
              if repos.length = 0 then (pre, none)
              else (pre ++ [.succeed], none)
          | _ => (pre, some .typeError)

/-- `run` (`src/backend/jobs/fetchThemes.ts`): receives at most one job; with
no job the invocation ends with no side effects.  Otherwise the `try` body
runs and its thrown error, if any, is routed by the `catch` clause:
transient errors retry the job, permanent errors fail it, and any other
error fails the job and is re-thrown to the platform (the second component
of the result is the re-thrown error). -/
def run (jobM : Option JobMessage) (resp : FetchResponse) :
    List Event × Option JobError :=
  match jobM with
  | none => ([], none)
  | some job =>
    match runBody job.payload resp with
    | (tr, none) => (tr, none)
    | (tr, some (.transient _)) => (tr ++ [.retry], none)
    | (tr, some (.permanent _)) => (tr ++ [.fail], none)
    | (tr, some .typeError) => (tr ++ [.fail], some .typeError)

/-- Acceptance condition the payload validator actually implements
(`Record({ page: Number })`): the payload is object-typed and its `page`
field holds a JavaScript number — any number, with no integrality or
lower-bound check.  Stated separately from `ScrapeThemesPayloadRuntime` to
compare the validator against it. -/
def hasNumericPage (v : JValue) : Bool :=
  match v with
  | .obj _ =>
      (match getProp v "page" with | .num _ => true | _ => false)
  | .arr _ =>
      (match getProp v "page" with | .num _ => true | _ => false)
  | _ => false

/-- Sample valid job payload `{ page: 1 }`. -/
def payload1 : JValue := .obj [("page", .num 1)]

/-- Sample received job message carrying `payload1`. -/
def job1 : JobMessage := ⟨"receipt-1", payload1⟩

/-- Sample version property carrying a GitHub repository link. -/
def propGithub : JValue :=
  .obj [("key", .str GITHUB_PROPERTY_NAME), ("value", .str "https://github.com/a/b")]

/-- Sample older version record, without a repository link. -/
def versionOld : JValue :=
  .obj [("lastUpdated", .str "2018-01-01T00:00:00.000Z"), ("properties", .arr [])]

/-- Sample newer version record, carrying the repository link. -/
def versionNew : JValue :=
  .obj [("lastUpdated", .str "2018-02-03T00:00:00.000Z"),
        ("properties", .arr [propGithub])]

/-- Sample extension record passing `ExtensionRuntime`, with two versions
listed oldest-first (so that sorting visibly reorders them). -/
def themeSample : JValue :=
  .obj [("extensionName", .str "theme-a"),
        ("publisher", .obj [("publisherName", .str "pub")]),
        ("versions", .arr [versionOld, versionNew]),
        ("statistics", .arr [])]

/-- Sample record rejected by `ExtensionRuntime` (an empty object). -/
def themeInvalid : JValue := .obj []

/-- A successful catalog response whose page carries the given extension
records. -/
def responseWith (themes : List JValue) : FetchResponse :=
  ⟨true, "OK", .obj [("results", .arr [.obj [("extensions", .arr themes)]])]⟩

/-- A failed catalog HTTP response. -/
def respBad : FetchResponse := ⟨false, "Service Unavailable", .jnull⟩

/-- A successful catalog response whose body has `results[0]` present but
without an `extensions` field. -/
def respNoShape : FetchResponse := ⟨true, "OK", .obj [("results", .arr [.obj []])]⟩

/-- Code-point order is reflexive. -/
theorem strLeAux_refl : ∀ a : List Char, strLeAux a a = true := by
  intro a
  induction a with
  | nil => rfl
  | cons c cs ih => simp [strLeAux, ih]

/-- Code-point order is total. -/
theorem strLeAux_total : ∀ a b : List Char, (strLeAux a b || strLeAux b a) = true := by
  intro a
  induction a with
  | nil => intro b; simp [strLeAux]
  | cons c cs ih =>
    intro b
    cases b with
    | nil => simp [strLeAux]
    | cons d ds =>
      simp only [strLeAux]
      rcases Nat.lt_trichotomy c.toNat d.toNat with h | h | h
      · simp [h]
      · simp [h, ih ds]
      · simp [h, Nat.lt_asymm h]

/-- Code-point order is transitive. -/
theorem strLeAux_trans :
    ∀ a b c : List Char,
      strLeAux a b = true → strLeAux b c = true → strLeAux a c = true := by
  intro a
  induction a with
  | nil => intro b c _ _; rfl
  | cons x xs ih =>
    intro b c hab hbc
    cases b with
    | nil => simp [strLeAux] at hab
    | cons y ys =>
      cases c with
      | nil => simp [strLeAux] at hbc
      | cons z zs =>
        simp only [strLeAux] at hab hbc ⊢
        by_cases h1 : x.toNat < y.toNat
        · by_cases h3 : y.toNat < z.toNat
          · have hxz : x.toNat < z.toNat := Nat.lt_trans h1 h3
            simp [hxz]
          · by_cases h4 : z.toNat < y.toNat
            · simp [h3, h4] at hbc
            · have hyz : y.toNat = z.toNat :=
                Nat.le_antisymm (Nat.not_lt.mp h4) (Nat.not_lt.mp h3)
              have hxz : x.toNat < z.toNat := hyz ▸ h1
              simp [hxz]
        · by_cases h2 : y.toNat < x.toNat
          · simp [h1, h2] at hab
          · have hxy : x.toNat = y.toNat :=
              Nat.le_antisymm (Nat.not_lt.mp h2) (Nat.not_lt.mp h1)
            simp [h1, h2] at hab
            by_cases h3 : y.toNat < z.toNat
            · have hxz : x.toNat < z.toNat := hxy ▸ h3
              simp [hxz]
            · by_cases h4 : z.toNat < y.toNat
              · simp [h3, h4] at hbc
              · simp [h3, h4] at hbc
                have hnx : ¬ x.toNat < z.toNat := by omega
                have hnz : ¬ z.toNat < x.toNat := by omega
                simp [hnx, hnz]
                exact ih ys zs hab hbc

/-- `strLe` is reflexive. -/
theorem strLe_refl (s : String) : strLe s s = true := strLeAux_refl _

/-- `strLe` is total. -/
theorem strLe_total (s t : String) : (strLe s t || strLe t s) = true :=
  strLeAux_total _ _

/-- `strLe` is transitive. -/
theorem strLe_trans {s t u : String} :
    strLe s t = true → strLe t u = true → strLe s u = true :=
  strLeAux_trans _ _ _

/-- The sort order of the versions comparator is total. -/
theorem versionRel_total (a b : JValue) : versionRel a b ∨ versionRel b a := by
  have h := strLe_total (lastUpdatedOf b) (lastUpdatedOf a)
  rcases (Bool.or_eq_true _ _).mp h with h' | h'
  · exact Or.inl h'
  · exact Or.inr h'

/-- The sort order of the versions comparator is transitive. -/
theorem versionRel_trans {a b c : JValue} :
    versionRel a b → versionRel b c → versionRel a c :=
  fun h1 h2 => strLe_trans h2 h1

/-- The sorted versions list is a permutation of the input. -/
theorem sortVersionsDesc_perm (vs : List JValue) :
    (sortVersionsDesc vs).Perm vs :=
  List.perm_insertionSort _ _

/-- The sorted versions list is pairwise descending by `lastUpdated`. -/
theorem sortVersionsDesc_sorted (vs : List JValue) :
    (sortVersionsDesc vs).Pairwise versionRel := by
  haveI : IsTotal JValue versionRel := ⟨versionRel_total⟩
  haveI : IsTrans JValue versionRel := ⟨fun a b c => versionRel_trans⟩
  exact List.sorted_insertionSort versionRel vs

/-- The head of the sorted versions list is drawn from the input and its
`lastUpdated` is maximal in code-point order. -/
theorem sortVersionsDesc_head_max (vs : List JValue) (latest : JValue)
    (rest : List JValue)
    (h : sortVersionsDesc vs = latest :: rest) :
    latest ∈ vs ∧
      ∀ v ∈ vs, strLe (lastUpdatedOf v) (lastUpdatedOf latest) = true := by
  have hperm := sortVersionsDesc_perm vs
  constructor
  · exact hperm.mem_iff.mp (by rw [h]; exact List.mem_cons_self _ _)
  · intro v hv
    have hv' : v ∈ latest :: rest := by rw [← h]; exact hperm.mem_iff.mpr hv
    rcases List.mem_cons.mp hv' with rfl | hv''
    · exact strLe_refl _
    · have hs := sortVersionsDesc_sorted vs
      rw [h] at hs
      exact (List.pairwise_cons.mp hs).1 v hv''

/-- A record accepted by `ExtensionRuntime` is an object (arrays and
primitives lack the required fields). -/
theorem ExtensionRuntime_guard_obj {t : JValue}
    (h : ExtensionRuntime.guard t = true) : ∃ fs, t = .obj fs := by
  cases t with
  | obj fs => exact ⟨fs, rfl⟩
  | jnull => exact Bool.noConfusion (show false = true from h)
  | undefined => exact Bool.noConfusion (show false = true from h)
  | bool b => exact Bool.noConfusion (show false = true from h)
  | num q => exact Bool.noConfusion (show false = true from h)
  | str s => exact Bool.noConfusion (show false = true from h)
  | arr xs => exact Bool.noConfusion (show false = true from h)

/-- A record accepted by `ExtensionRuntime` has an array-valued `versions`
field. -/
theorem ExtensionRuntime_guard_versions {t : JValue}
    (h : ExtensionRuntime.guard t = true) :
    ∃ vs, getProp t "versions" = .arr vs := by
  obtain ⟨fs, rfl⟩ := ExtensionRuntime_guard_obj h
  have h' :
      (RTString.guard (getProp (.obj fs) "extensionName") &&
        (PublisherRuntime.guard (getProp (.obj fs) "publisher") &&
          ((RTArray VersionRuntime).guard (getProp (.obj fs) "versions") &&
            ((RTArray StatisticRuntime).guard (getProp (.obj fs) "statistics") &&
              true)))) = true := h
  simp only [Bool.and_eq_true] at h'
  have hv := h'.2.2.1
  cases hg : getProp (.obj fs) "versions" with
  | arr vs => exact ⟨vs, rfl⟩
  | jnull => rw [hg] at hv; exact Bool.noConfusion (show false = true from hv)
  | undefined => rw [hg] at hv; exact Bool.noConfusion (show false = true from hv)
  | bool b => rw [hg] at hv; exact Bool.noConfusion (show false = true from hv)
  | num q => rw [hg] at hv; exact Bool.noConfusion (show false = true from hv)
  | str s => rw [hg] at hv; exact Bool.noConfusion (show false = true from hv)
  | obj gs => rw [hg] at hv; exact Bool.noConfusion (show false = true from hv)

/-- Replacing a present field makes the replacement the value subsequently
looked up. -/
theorem lookupField_setField (fs : List (String × JValue)) (key : String)
    (w : JValue) (h : (lookupField fs key).isSome) :
    lookupField (setField fs key w) key = some w := by
  induction fs with
  | nil => simp [lookupField] at h
  | cons kv fs ih =>
    by_cases hk : kv.1 = key
    · simp [setField, lookupField, hk]
    · simp only [setField, lookupField, hk, if_neg, if_false] at h ⊢
      exact ih h

/-- An array-valued property read on an object comes from a present field. -/
theorem lookupField_of_getProp {fs : List (String × JValue)} {key : String}
    {vs : List JValue} (h : getProp (.obj fs) key = .arr vs) :
    lookupField fs key = some (.arr vs) := by
  have h' : (lookupField fs key).getD .undefined = .arr vs := h
  cases hl : lookupField fs key with
  | none => rw [hl] at h'; exact JValue.noConfusion h'
  | some v => rw [hl] at h'; simpa using h'

/-- Reading back a freshly replaced field yields the replacement. -/
theorem getProp_setField {fs : List (String × JValue)} {key : String}
    {w : JValue} (h : (lookupField fs key).isSome) :
    getProp (.obj (setField fs key w)) key = w := by
  show (lookupField (setField fs key w) key).getD .undefined = w
  rw [lookupField_setField fs key w h]
  rfl

/-- `asArr` on an array value is its element list. -/
theorem asArr_arr (xs : List JValue) : asArr (.arr xs) = xs := rfl

/-- On a record accepted by `ExtensionRuntime`, a successful `processTheme`
leaves the record's `versions` field holding the sorted versions list. -/
theorem processTheme_ok_versions {t t' : JValue} {r : Option String}
    (hg : ExtensionRuntime.guard t = true)
    (h : processTheme t = .ok (r, t')) :
    ∃ vs, getProp t "versions" = .arr vs ∧
      getProp t' "versions" = .arr (sortVersionsDesc vs) := by
  obtain ⟨fs, rfl⟩ := ExtensionRuntime_guard_obj hg
  obtain ⟨vs, hvs⟩ := ExtensionRuntime_guard_versions hg
  refine ⟨vs, hvs, ?_⟩
  have hlf := lookupField_of_getProp hvs
  have hsome : (lookupField fs "versions").isSome := by rw [hlf]; rfl
  cases hs : sortVersionsDesc vs with
  | nil =>
    simp only [processTheme, hg, if_true, hvs, asArr_arr, hs] at h
    exact Except.noConfusion h
  | cons latest rest =>
    cases hf : (asArr (getProp latest "properties")).find?
        (fun p => strictEqStr (getProp p "key") GITHUB_PROPERTY_NAME) with
    | some p =>
      simp only [processTheme, hg, if_true, hvs, asArr_arr, hs, hf] at h
      have ht' : t' = .obj (setField fs "versions" (.arr (latest :: rest))) :=
        (congrArg Prod.snd (Except.ok.inj h)).symm
      rw [ht']
      exact getProp_setField hsome
    | none =>
      simp only [processTheme, hg, if_true, hvs, asArr_arr, hs, hf] at h
      have ht' : t' = .obj (setField fs "versions" (.arr (latest :: rest))) :=
        (congrArg Prod.snd (Except.ok.inj h)).symm
      rw [ht']
      exact getProp_setField hsome

/-- A record that fails validation, or whose latest version lacks the
repository-link property, contributes no URL and no error. -/
theorem processTheme_skip {t : JValue}
    (h : ExtensionRuntime.guard t = false ∨
        ∃ latest rest,
          sortVersionsDesc (asArr (getProp t "versions")) = latest :: rest ∧
            (asArr (getProp latest "properties")).find?
              (fun p => strictEqStr (getProp p "key") GITHUB_PROPERTY_NAME) =
              none) :
    ∃ t', processTheme t = .ok (none, t') := by
  rcases h with h | ⟨latest, rest, hs, hf⟩
  · exact ⟨t, by simp [processTheme, h]⟩
  · by_cases hg : ExtensionRuntime.guard t = true
    · refine ⟨?_, ?_⟩
      · exact match t with
          | .obj fs =>
              .obj (setField fs "versions"
                (.arr (sortVersionsDesc (asArr (getProp (.obj fs) "versions")))))
          | t => t
      · simp only [processTheme, hg, if_true, hs, hf]
        cases t <;> simp [← hs]
    · have hg' : ExtensionRuntime.guard t = false := by
        cases hb : ExtensionRuntime.guard t
        · rfl
        · exact absurd hb hg
      exact ⟨t, by simp [processTheme, hg']⟩

/-- Inserting a record that contributes no URL and throws no error leaves
the extracted URL outcome (success URLs, or the propagated error) of the
whole page unchanged. -/
theorem extractRepositories_skip_middle (pre post : List JValue) {r : JValue}
    (h : ∃ r', processTheme r = .ok (none, r')) :
    Except.map Prod.fst (extractRepositories (pre ++ r :: post)) =
      Except.map Prod.fst (extractRepositories (pre ++ post)) := by
  obtain ⟨r', hr⟩ := h
  induction pre with
  | nil =>
    simp only [List.nil_append, extractRepositories, hr]
    cases h2 : extractRepositories post with
    | error e => simp [Except.map]
    | ok rs => simp [Except.map]
  | cons t ts ih =>
    simp only [List.cons_append, extractRepositories]
    cases h1 : processTheme t with
    | error e => simp [Except.map]
    | ok rt =>
      obtain ⟨r0, t0⟩ := rt
      cases e1 : extractRepositories (ts ++ r :: post) with
      | error a =>
        cases e2 : extractRepositories (ts ++ post) with
        | error b =>
          simp only [e1, e2, Except.map, Except.error.injEq] at ih
          simp [Except.map, ih]
        | ok rs2 =>
          simp only [e1, e2, Except.map] at ih
          exact Except.noConfusion ih
      | ok rs1 =>
        cases e2 : extractRepositories (ts ++ post) with
        | error b =>
          simp only [e1, e2, Except.map] at ih
          exact Except.noConfusion ih
        | ok rs2 =>
          simp only [e1, e2, Except.map, Except.ok.injEq] at ih
          cases r0 with
          | none => simp [Except.map, ih]
          | some u => simp [Except.map, ih]

/-- Pointwise effect of a successful extraction: every record accepted by the
validator has its `versions` field replaced by a permutation of the original
versions sorted pairwise-descending by `lastUpdated`. -/
theorem extractRepositories_sorts (themes : List JValue) (urls : List String)
    (out : List JValue) (h : extractRepositories themes = .ok (urls, out)) :
    List.Forall₂
      (fun t t' =>
        ExtensionRuntime.guard t = true →
          ∃ vs, getProp t "versions" = .arr vs ∧
            getProp t' "versions" = .arr (sortVersionsDesc vs) ∧
            (sortVersionsDesc vs).Perm vs ∧
            (sortVersionsDesc vs).Pairwise versionRel)
      themes out := by
  induction themes generalizing urls out with
  | nil =>
    simp only [extractRepositories, Except.ok.injEq, Prod.mk.injEq] at h
    rw [← h.2]
    exact List.Forall₂.nil
  | cons t ts ih =>
    simp only [extractRepositories] at h
    cases h1 : processTheme t with
    | error e => rw [h1] at h; exact Except.noConfusion h
    | ok rt =>
      obtain ⟨r0, t0⟩ := rt
      rw [h1] at h
      cases h2 : extractRepositories ts with
      | error e => rw [h2] at h; exact Except.noConfusion h
      | ok rso =>
        obtain ⟨rs, os⟩ := rso
        rw [h2] at h
        have hout : out = t0 :: os := by
          have := Except.ok.inj h
          exact (congrArg Prod.snd this).symm
        rw [hout]
        refine List.Forall₂.cons ?_ (ih rs os h2)
        intro hg
        obtain ⟨vs, hvs, hvs'⟩ := processTheme_ok_versions hg h1
        exact ⟨vs, hvs, hvs', sortVersionsDesc_perm vs, sortVersionsDesc_sorted vs⟩

/-- A non-empty extensions array fails the `themes.length === 0` test. -/
theorem strictEqNum_length_cons (e : JValue) (es : List JValue) :
    strictEqNum (getProp (.arr (e :: es)) "length") 0 = false := by
  have hpos : (0 : ℚ) < (es.length : ℚ) + 1 := by positivity
  simp [getProp, strictEqNum]
  exact hpos.ne'

/-- In a trace starting with the four fixed non-acknowledgement events, any
`succeed` sits at index at least 4. -/
theorem succeed_index_ge_four (p q : ℚ) (rest : List Event) :
    ∀ i : ℕ,
      (Event.fetchRequest p :: Event.create q :: Event.notify ::
        Event.extractStart :: rest)[i]? = some Event.succeed → 4 ≤ i := by
  intro i h
  match i with
  | 0 => simp at h
  | 1 => simp at h
  | 2 => simp at h
  | 3 => simp at h
  | n + 4 => omega

/-- On a validated payload and a fetched page with at least one extension,
the body trace starts with the catalog request, the creation of the
page + 1 job, `notify`, and the start of extraction, in that order; the only
further event that may follow is a final `succeed`, and the body either
returns normally or throws a `TypeError`. -/
theorem runBody_nonempty_shape (payload : JValue) (resp : FetchResponse)
    (e : JValue) (es : List JValue)
    (hguard : ScrapeThemesPayloadRuntime.guard payload = true)
    (hfetch : fetchMarketplaceThemes resp = .ok (.arr (e :: es))) :
    ∃ tail err,
      runBody payload resp =
        ([.fetchRequest (getNumD (getProp payload "page")),
          .create (getNumD (getProp payload "page") + 1),
          .notify, .extractStart] ++ tail, err) ∧
      (tail = [] ∨ tail = [.succeed]) ∧
      (err = none ∨ err = some .typeError) := by
  have hlen := strictEqNum_length_cons e es
  cases hex : extractRepositories (e :: es) with
  | error a =>
    refine ⟨[], some .typeError, ?_, Or.inl rfl, Or.inr rfl⟩
    simp [runBody, hguard, hfetch, hlen, hex]
  | ok ro =>
    obtain ⟨repos, out⟩ := ro
    by_cases hrep : repos.length = 0
    · refine ⟨[], none, ?_, Or.inl rfl, Or.inl rfl⟩
      simp [runBody, hguard, hfetch, hlen, hex, hrep]
    · refine ⟨[.succeed], none, ?_, Or.inr rfl, Or.inl rfl⟩
      simp [runBody, hguard, hfetch, hlen, hex, hrep]

/-- C1: on a received job whose payload validates and whose fetched page has
at least one extension, the crawler creates the next-page job with
`page = currentPage + 1` and calls `notify()`, in that order, before
extraction of repository URLs begins (`extractStart`), and any successful
acknowledgement of the current job can only come later in the trace. -/
theorem fetchThemes_next_page_before_extraction
    (job : JobMessage) (resp : FetchResponse) (e : JValue) (es : List JValue)
    (hguard : ScrapeThemesPayloadRuntime.guard job.payload = true)
    (hfetch : fetchMarketplaceThemes resp = .ok (.arr (e :: es))) :
    (∃ rest,
      (run (some job) resp).1 =
        Event.fetchRequest (getNumD (getProp job.payload "page")) ::
          Event.create (getNumD (getProp job.payload "page") + 1) ::
            Event.notify :: Event.extractStart :: rest) ∧
    ∀ i : ℕ, (run (some job) resp).1[i]? = some Event.succeed → 4 ≤ i := by
  obtain ⟨tail, err, hbody, htail, herr⟩ :=
    runBody_nonempty_shape job.payload resp e es hguard hfetch
  rcases herr with rfl | rfl
  · have hr1 : (run (some job) resp).1 =
        Event.fetchRequest (getNumD (getProp job.payload "page")) ::
          Event.create (getNumD (getProp job.payload "page") + 1) ::
            Event.notify :: Event.extractStart :: tail := by
      simp [run, hbody]
    refine ⟨⟨tail, hr1⟩, ?_⟩
    intro i h
    rw [hr1] at h
    exact succeed_index_ge_four _ _ tail i h
  · have hr1 : (run (some job) resp).1 =
        Event.fetchRequest (getNumD (getProp job.payload "page")) ::
          Event.create (getNumD (getProp job.payload "page") + 1) ::
            Event.notify :: Event.extractStart :: (tail ++ [Event.fail]) := by
      simp [run, hbody]
    refine ⟨⟨tail ++ [Event.fail], hr1⟩, ?_⟩
    intro i h
    rw [hr1] at h
    exact succeed_index_ge_four _ _ (tail ++ [Event.fail]) i h

/-- C1 witness at a concrete input. -/
theorem fetchThemes_next_page_before_extraction_witness :
    (∃ rest,
      (run (some job1) (responseWith [themeInvalid])).1 =
        Event.fetchRequest (getNumD (getProp job1.payload "page")) ::
          Event.create (getNumD (getProp job1.payload "page") + 1) ::
            Event.notify :: Event.extractStart :: rest) ∧
    ∀ i : ℕ,
      (run (some job1) (responseWith [themeInvalid])).1[i]? =
        some Event.succeed → 4 ≤ i :=
  fetchThemes_next_page_before_extraction job1 (responseWith [themeInvalid])
    themeInvalid [] (by decide) rfl

/-- C5: on a validated payload whose fetched page has zero extensions, the
invocation issues the catalog request and succeeds the current job, and
nothing else: no next-page job is created, `notify` is never called, and
extraction never starts. -/
theorem fetchThemes_empty_page_succeeds
    (job : JobMessage) (resp : FetchResponse)
    (hguard : ScrapeThemesPayloadRuntime.guard job.payload = true)
    (hfetch : fetchMarketplaceThemes resp = .ok (.arr [])) :
    run (some job) resp =
      ([.fetchRequest (getNumD (getProp job.payload "page")), .succeed],
        none) ∧
    (∀ q : ℚ, Event.create q ∉ (run (some job) resp).1) ∧
    Event.notify ∉ (run (some job) resp).1 ∧
    Event.extractStart ∉ (run (some job) resp).1 := by
  have hb : runBody job.payload resp =
      ([.fetchRequest (getNumD (getProp job.payload "page")), .succeed],
        none) := by
    simp [runBody, hguard, hfetch, strictEqNum, getProp]
  have hr : run (some job) resp =
      ([.fetchRequest (getNumD (getProp job.payload "page")), .succeed],
        none) := by
    simp [run, hb]
  refine ⟨hr, ?_, ?_, ?_⟩
  · intro q
    rw [hr]
    simp
  · rw [hr]; simp
  · rw [hr]; simp

/-- C5 witness at a concrete input. -/
theorem fetchThemes_empty_page_succeeds_witness :
    run (some job1) (responseWith []) =
      ([.fetchRequest (getNumD (getProp job1.payload "page")), .succeed],
        none) ∧
    (∀ q : ℚ, Event.create q ∉ (run (some job1) (responseWith [])).1) ∧
    Event.notify ∉ (run (some job1) (responseWith [])).1 ∧
    Event.extractStart ∉ (run (some job1) (responseWith [])).1 :=
  fetchThemes_empty_page_succeeds job1 (responseWith []) (by decide) rfl

/-- C6: a received job whose payload fails schema validation throws
`PermanentJobError` inside the body, the job is routed to `fail`
(dead-letter) with no re-throw, and no catalog request is ever issued. -/
theorem fetchThemes_invalid_payload_fails
    (job : JobMessage) (resp : FetchResponse)
    (hguard : ScrapeThemesPayloadRuntime.guard job.payload = false) :
    runBody job.payload resp = ([], some (.permanent "Invalid job payload.")) ∧
    run (some job) resp = ([.fail], none) ∧
    ∀ q : ℚ, Event.fetchRequest q ∉ (run (some job) resp).1 := by
  have hb : runBody job.payload resp =
      ([], some (.permanent "Invalid job payload.")) := by
    simp [runBody, hguard]
  have hr : run (some job) resp = ([.fail], none) := by
    simp [run, hb]
  refine ⟨hb, hr, ?_⟩
  intro q
  rw [hr]
  simp

/-- C6 witness at a concrete input (payload missing `page`). -/
theorem fetchThemes_invalid_payload_fails_witness :
    runBody (.obj []) respBad = ([], some (.permanent "Invalid job payload.")) ∧
    run (some ⟨"receipt-2", .obj []⟩) respBad = ([.fail], none) ∧
    ∀ q : ℚ,
      Event.fetchRequest q ∉ (run (some ⟨"receipt-2", .obj []⟩) respBad).1 :=
  fetchThemes_invalid_payload_fails ⟨"receipt-2", .obj []⟩ respBad (by decide)

/-- C7: a non-success catalog HTTP response raises a Transient error whose
message is `"Bad response: "` followed by the response's status text, and
the current job is retried, not failed. -/
theorem fetchThemes_bad_response_retries
    (job : JobMessage) (resp : FetchResponse)
    (hguard : ScrapeThemesPayloadRuntime.guard job.payload = true)
    (hok : resp.ok = false) :
    fetchMarketplaceThemes resp =
      .error (.transient ("Bad response: " ++ resp.statusText)) ∧
    run (some job) resp =
      ([.fetchRequest (getNumD (getProp job.payload "page")), .retry],
        none) ∧
    Event.fail ∉ (run (some job) resp).1 := by
  have hf : fetchMarketplaceThemes resp =
      .error (.transient ("Bad response: " ++ resp.statusText)) := by
    simp [fetchMarketplaceThemes, hok]
  have hb : runBody job.payload resp =
      ([.fetchRequest (getNumD (getProp job.payload "page"))],
        some (.transient ("Bad response: " ++ resp.statusText))) := by
    simp [runBody, hguard, hf]
  have hr : run (some job) resp =
      ([.fetchRequest (getNumD (getProp job.payload "page")), .retry],
        none) := by
    simp [run, hb]
  refine ⟨hf, hr, ?_⟩
  rw [hr]
  simp

/-- C7 witness at a concrete input. -/
theorem fetchThemes_bad_response_retries_witness :
    fetchMarketplaceThemes respBad =
      .error (.transient ("Bad response: " ++ respBad.statusText)) ∧
    run (some job1) respBad =
      ([.fetchRequest (getNumD (getProp job1.payload "page")), .retry],
        none) ∧
    Event.fail ∉ (run (some job1) respBad).1 :=
  fetchThemes_bad_response_retries job1 respBad (by decide) rfl

/-- C2 (counter-evidence): on a valid payload and a non-empty page whose one
record yields no repository URL, the source's early `return` (lines 44–48 of
`src/backend/jobs/fetchThemes.ts`) skips `fetchThemes.succeed(job)`: the
invocation ends with the next-page job created and notified but with none of
`succeed`/`retry`/`fail` issued on the received job. -/
theorem fetchThemes_zero_repos_no_ack :
    run (some job1) (responseWith [themeInvalid]) =
      ([.fetchRequest 1, .create (1 + 1), .notify, .extractStart], none) ∧
    Event.succeed ∉ (run (some job1) (responseWith [themeInvalid])).1 ∧
    Event.retry ∉ (run (some job1) (responseWith [themeInvalid])).1 ∧
    Event.fail ∉ (run (some job1) (responseWith [themeInvalid])).1 := by
  refine ⟨rfl, by decide, by decide, by decide⟩

/-- C3 (counterexample): the payload validator accepts `{ page: 0 }` even
though 0 < 1, refuting "accepts exactly when the page field is an integer
greater than or equal to 1". -/
theorem ScrapeThemesPayload_accepts_page_zero :
    ScrapeThemesPayloadRuntime.guard (.obj [("page", .num 0)]) = true ∧
    ¬ (1 ≤ (0 : ℚ)) := by
  refine ⟨by decide, by norm_num⟩

/-- The validator's acceptance coincides with "object-typed payload whose
`page` field is any number". -/
theorem guard_eq_hasNumericPage (p : JValue) :
    ScrapeThemesPayloadRuntime.guard p = hasNumericPage p := by
  cases p with
  | obj fs =>
    cases hgp : getProp (.obj fs) "page" <;>
      simp [ScrapeThemesPayloadRuntime, RTRecord, RTNumber, hasNumericPage, hgp]
  | arr xs =>
    cases hgp : getProp (.arr xs) "page" <;>
      simp [ScrapeThemesPayloadRuntime, RTRecord, RTNumber, hasNumericPage, hgp]
  | jnull => rfl
  | undefined => rfl
  | bool b => rfl
  | num q => rfl
  | str s => rfl

/-- C3 (amended): the payload validator accepts a payload exactly when it is
object-typed with a `page` field holding a JavaScript number — any number,
with no integrality or `>= 1` check — and every rejected payload is routed
to permanent failure with no catalog request issued. -/
theorem ScrapeThemesPayload_guard_characterization :
    (∀ p : JValue, ScrapeThemesPayloadRuntime.guard p = hasNumericPage p) ∧
    (∀ (job : JobMessage) (resp : FetchResponse),
      hasNumericPage job.payload = false →
        run (some job) resp = ([.fail], none)) := by
  refine ⟨guard_eq_hasNumericPage, ?_⟩
  intro job resp h
  have hg : ScrapeThemesPayloadRuntime.guard job.payload = false :=
    (guard_eq_hasNumericPage job.payload).trans h
  have hb : runBody job.payload resp =
      ([], some (.permanent "Invalid job payload.")) := by
    simp [runBody, hg]
  simp [run, hb]

/-- C3 witness at concrete inputs. -/
theorem ScrapeThemesPayload_guard_characterization_witness :
    ScrapeThemesPayloadRuntime.guard payload1 = hasNumericPage payload1 ∧
    run (some ⟨"receipt-3", .str "oops"⟩) respBad = ([.fail], none) :=
  ⟨ScrapeThemesPayload_guard_characterization.1 payload1,
    ScrapeThemesPayload_guard_characterization.2 ⟨"receipt-3", .str "oops"⟩
      respBad (by decide)⟩

/-- C4 (counter-evidence): on the response body `{"results":[{}]}` — which
does not contain the expected `results[0].extensions` shape — no `TypeError`
is thrown inside `fetchMarketplaceThemes` (the member accesses merely yield
`undefined`), so no Transient error is raised; instead the later
`themes.length` access throws an unclassified `TypeError`: the job is failed
and the error re-thrown, not retried. -/
theorem fetchThemes_missing_shape_not_transient :
    fetchMarketplaceThemes respNoShape = .ok .undefined ∧
    run (some job1) respNoShape = ([.fetchRequest 1, .fail], some .typeError) ∧
    Event.retry ∉ (run (some job1) respNoShape).1 := by
  refine ⟨rfl, rfl, by decide⟩

/-- C8: for a validated extension record, the version selected by extraction
— `processTheme` takes the head of `sortVersionsDesc` over the record's
versions — is drawn from the record's versions and its `lastUpdated` string
is the lexicographically maximal one; stated for records with at least two
versions as in the specification. -/
theorem extraction_uses_latest_version (theme : JValue) (vs : List JValue)
    (hg : ExtensionRuntime.guard theme = true)
    (hvs : getProp theme "versions" = .arr vs)
    (h2 : 2 ≤ vs.length) :
    ∃ latest rest,
      sortVersionsDesc (asArr (getProp theme "versions")) = latest :: rest ∧
      latest ∈ vs ∧
      ∀ v ∈ vs, strLe (lastUpdatedOf v) (lastUpdatedOf latest) = true := by
  rw [hvs, asArr_arr]
  cases hs : sortVersionsDesc vs with
  | nil =>
    exfalso
    have hlen := (sortVersionsDesc_perm vs).length_eq
    rw [hs] at hlen
    simp at hlen
    omega
  | cons latest rest =>
    obtain ⟨hmem, hmax⟩ := sortVersionsDesc_head_max vs latest rest hs
    exact ⟨latest, rest, rfl, hmem, hmax⟩

/-- C8 witness at a concrete two-version record. -/
theorem extraction_uses_latest_version_witness :
    ∃ latest rest,
      sortVersionsDesc (asArr (getProp themeSample "versions")) =
        latest :: rest ∧
      latest ∈ [versionOld, versionNew] ∧
      ∀ v ∈ [versionOld, versionNew],
        strLe (lastUpdatedOf v) (lastUpdatedOf latest) = true :=
  extraction_uses_latest_version themeSample [versionOld, versionNew]
    (by decide) rfl (by decide)

/-- C9: a record that fails shape validation, or whose latest (first after
sorting) version lacks the `GITHUB_PROPERTY_NAME` property, adds no URL and
raises no error: the URL outcome of extracting the page with the record
present equals the outcome with the record removed, so the remaining records
are still processed. -/
theorem extraction_skips_bad_records (pre post : List JValue) (r : JValue)
    (h : ExtensionRuntime.guard r = false ∨
        ∃ latest rest,
          sortVersionsDesc (asArr (getProp r "versions")) = latest :: rest ∧
            (asArr (getProp latest "properties")).find?
              (fun p => strictEqStr (getProp p "key") GITHUB_PROPERTY_NAME) =
              none) :
    Except.map Prod.fst (extractRepositories (pre ++ r :: post)) =
      Except.map Prod.fst (extractRepositories (pre ++ post)) :=
  extractRepositories_skip_middle pre post (processTheme_skip h)

/-- C9 witness: an invalid record amid valid ones. -/
theorem extraction_skips_bad_records_witness :
    Except.map Prod.fst
        (extractRepositories ([themeSample] ++ themeInvalid :: [])) =
      Except.map Prod.fst (extractRepositories ([themeSample] ++ [])) :=
  extraction_skips_bad_records [themeSample] [] themeInvalid
    (Or.inl (by decide))

/-- C10: extraction mutates its input page: on a successful run, every record
accepted by the validator has its `versions` array replaced — in the themes
structure the caller observes — by a permutation of the original versions
that is pairwise descending by `lastUpdated`, rather than the order returned
by the source. -/
theorem extraction_sorts_versions_in_place (themes : List JValue)
    (urls : List String) (out : List JValue)
    (h : extractRepositories themes = .ok (urls, out)) :
    List.Forall₂
      (fun t t' =>
        ExtensionRuntime.guard t = true →
          ∃ vs, getProp t "versions" = .arr vs ∧
            getProp t' "versions" = .arr (sortVersionsDesc vs) ∧
            (sortVersionsDesc vs).Perm vs ∧
            (sortVersionsDesc vs).Pairwise versionRel)
      themes out :=
  extractRepositories_sorts themes urls out h

/-- C10 witness: the sample record's versions arrive oldest-first and are
observed newest-first after extraction. -/
theorem extraction_sorts_versions_in_place_witness :
    ∃ urls out, extractRepositories [themeSample] = .ok (urls, out) ∧
      List.Forall₂
        (fun t t' =>
          ExtensionRuntime.guard t = true →
            ∃ vs, getProp t "versions" = .arr vs ∧
              getProp t' "versions" = .arr (sortVersionsDesc vs) ∧
              (sortVersionsDesc vs).Perm vs ∧
              (sortVersionsDesc vs).Pairwise versionRel)
        [themeSample] out :=
  ⟨_, _, rfl, extraction_sorts_versions_in_place [themeSample] _ _ rfl⟩

end VSCodeThemes
